import Mathlib

/-!
Verification development for a dual-channel oscilloscope GUI
(serial frame decoding, triggering, display windowing, auto-scaling,
measurements, audio resampling).  Sample data is modelled over `ℚ`
(the source works with Python ints/floats; the rational model keeps the
arithmetic exact and executable), except for the FFT-based measurement
engine which genuinely needs `ℝ`.
-/

namespace MiniScope

/-! ## Constants, from src/gui/src/config.py -/

/-- fake sampling rate in Hz (`FAKE_FS = 50000`). -/
def FAKE_FS : ℚ := 50000

/-- maximum ADC count (`ADC_MAX = 4095`). -/
def ADC_MAX : ℕ := 4095

/-- reference voltage (`VREF = 3.3`). -/
def VREF : ℚ := 33 / 10

/-- samples per channel per UART frame (`SAMPLES_PER_CHANNEL = 2048`). -/
def SAMPLES_PER_CHANNEL : ℕ := 2048

/-- number of channels (`NUM_CHANNELS = 2`). -/
def NUM_CHANNELS : ℕ := 2

/-- bytes per UART frame (`FRAME_BYTES = SAMPLES_PER_CHANNEL * NUM_CHANNELS * 2`). -/
def FRAME_BYTES : ℕ := SAMPLES_PER_CHANNEL * NUM_CHANNELS * 2

/-- per-channel ring-buffer capacity (`BUFFER_SIZE = 8000`). -/
def BUFFER_SIZE : ℕ := 8000

/-- channel-1 display voltage multiplier (`VOLTAGE_MULT_CH1 = 9.0`). -/
def VOLTAGE_MULT_CH1 : ℚ := 9

/-- channel-2 display voltage multiplier (`VOLTAGE_MULT_CH2 = 9.25`). -/
def VOLTAGE_MULT_CH2 : ℚ := 37 / 4

/-! ## src/gui/src/utils.py : moving_average

The Python code is
```
if len(data) < window_size: return data
ret = np.cumsum(data, dtype=float)
ret[window_size:] = ret[window_size:] - ret[:-window_size]
return list(ret[window_size - 1:] / window_size)
```
`np.cumsum` is the prefix-sum primitive; `cumsum` below is its semantics.
`subShifted` is the in-place slice update `ret[w:] = ret[w:] - ret[:-w]`:
entry `i` is untouched for `i < w` and becomes `ret[i] - ret[i-w]` otherwise.
-/

/-- cumulative (inclusive) prefix sums, the semantics of `np.cumsum`. -/
def cumsum (data : List ℚ) : List ℚ :=
  (List.range data.length).map (fun i => ((data.take (i + 1)).sum))

/-- the slice update `ret[w:] = ret[w:] - ret[:-w]` from `moving_average`. -/
def subShifted (ret : List ℚ) (w : ℕ) : List ℚ :=
  (List.range ret.length).map
    (fun i => if i < w then ret.getD i 0 else ret.getD i 0 - ret.getD (i - w) 0)

/-- moving_average from src/gui/src/utils.py (running-sum window average). -/
def moving_average (data : List ℚ) (window_size : ℕ) : List ℚ :=
  if data.length < window_size then data
  else ((subShifted (cumsum data) window_size).drop (window_size - 1)).map
    (fun x => x / (window_size : ℚ))

/-- Modelled from the spec: the naive O(n·w) sliding-window mean that
`moving_average` is claimed to agree with — `len(data)-w+1` values, the
j-th being the arithmetic mean of `data[j .. j+w-1]` (pass-through when
the data is shorter than the window). -/
def naiveMovingAverage (data : List ℚ) (w : ℕ) : List ℚ :=
  if data.length < w then data
  else (List.range (data.length - w + 1)).map
    (fun j => ((data.drop j).take w).sum / (w : ℚ))

/-! ## src/gui/src/utils.py : find_triggers

The Python loop scans `i in range(N - min_width)`, records a crossing index
when the edge condition and the `min_width`-sample hold condition are met,
and breaks out of the loop as soon as `len(out) >= max_found`.
-/

/-- edge condition at index `i`: `data[i] < th <= data[i+1]` for rising,
`data[i] > th >= data[i+1]` for falling. -/
def crossingAt (data : List ℚ) (threshold : ℚ) (rising : Bool) (i : ℕ) : Bool :=
  if rising then
    decide (data.getD i 0 < threshold) && decide (threshold ≤ data.getD (i + 1) 0)
  else
    decide (data.getD i 0 > threshold) && decide (threshold ≥ data.getD (i + 1) 0)

/-- hold condition: for every `k` in `1..=min_width`, `i+k` is in range and
`data[i+k]` stays on the triggered side of the threshold.  This mirrors the
inner Python loop `for k in range(1, min_width+1): if i+k >= N or ... :
valid = False`. -/
def holdAt (data : List ℚ) (threshold : ℚ) (rising : Bool) (minWidth i : ℕ) : Bool :=
  (List.range minWidth).all fun k =>
    decide (i + (k + 1) < data.length) &&
      (if rising then decide (threshold ≤ data.getD (i + (k + 1)) 0)
       else decide (data.getD (i + (k + 1)) 0 ≤ threshold))

/-- the scanning loop of `find_triggers`, with its early `break` once
`max_found` accepted crossings have been collected. -/
def ftLoop (data : List ℚ) (threshold : ℚ) (rising : Bool) (maxFound minWidth : ℕ) :
    List ℕ → List ℕ → List ℕ
  | [], acc => acc
  | i :: rest, acc =>
    let acc' := if crossingAt data threshold rising i && holdAt data threshold rising minWidth i
      then acc ++ [i] else acc
    if maxFound ≤ acc'.length then acc'
    else ftLoop data threshold rising maxFound minWidth rest acc'

/-- find_triggers from src/gui/src/utils.py. -/
def find_triggers (data : List ℚ) (threshold : ℚ) (rising : Bool)
    (maxFound minWidth : ℕ) : List ℕ :=
  ftLoop data threshold rising maxFound minWidth
    (List.range (data.length - minWidth)) []

/-- Modelled from the spec: index `i` qualifies as a trigger when the edge
condition holds and for every `k` in `1..min_width` the sample `data[i+k]`
exists and stays on the triggered side of the threshold. -/
def triggerSpecOK (data : List ℚ) (threshold : ℚ) (rising : Bool)
    (minWidth i : ℕ) : Prop :=
  (if rising then data.getD i 0 < threshold ∧ threshold ≤ data.getD (i + 1) 0
   else threshold < data.getD i 0 ∧ data.getD (i + 1) 0 ≤ threshold) ∧
  ∀ k, 1 ≤ k → k ≤ minWidth → i + k < data.length ∧
    (if rising then threshold ≤ data.getD (i + k) 0
     else data.getD (i + k) 0 ≤ threshold)

instance (data : List ℚ) (threshold : ℚ) (rising : Bool) (minWidth i : ℕ) :
    Decidable (triggerSpecOK data threshold rising minWidth i) :=
  decidable_of_iff
    ((if rising then data.getD i 0 < threshold ∧ threshold ≤ data.getD (i + 1) 0
      else threshold < data.getD i 0 ∧ data.getD (i + 1) 0 ≤ threshold) ∧
     ∀ k, k < minWidth → i + (k + 1) < data.length ∧
       (if rising then threshold ≤ data.getD (i + (k + 1)) 0
        else data.getD (i + (k + 1)) 0 ≤ threshold))
    (by
      unfold triggerSpecOK
      refine and_congr Iff.rfl ?_
      constructor
      · intro h k h1 h2
        have := h (k - 1) (by omega)
        rwa [show k - 1 + 1 = k by omega] at this
      · intro h k hk
        exact h (k + 1) (by omega) (by omega))

/-! ## Lemmas about moving_average -/

lemma cumsum_getD (data : List ℚ) (i : ℕ) (hi : i < data.length) :
    (cumsum data).getD i 0 = (data.take (i + 1)).sum := by
  have hlen : i < (cumsum data).length := by
    simpa [cumsum] using hi
  rw [List.getD_eq_getElem _ _ hlen]
  simp [cumsum]

lemma subShifted_cumsum_getD (data : List ℚ) (w j : ℕ) (hw : 0 < w)
    (hj : w - 1 + j < data.length) :
    (subShifted (cumsum data) w).getD (w - 1 + j) 0 = ((data.drop j).take w).sum := by
  have hlen : w - 1 + j < (subShifted (cumsum data) w).length := by
    simpa [subShifted, cumsum] using hj
  rw [List.getD_eq_getElem _ _ hlen]
  simp only [subShifted, List.getElem_map, List.getElem_range]
  rcases Nat.eq_zero_or_pos j with hj0 | hjpos
  · subst hj0
    rw [if_pos (by omega)]
    rw [cumsum_getD data _ (by omega)]
    simp [show w - 1 + 0 + 1 = w by omega]
  · rw [if_neg (by omega)]
    rw [cumsum_getD data _ (by omega), cumsum_getD data _ (by omega)]
    have h1 : w - 1 + j + 1 = j + w := by omega
    have h2 : w - 1 + j - w = j - 1 := by omega
    have h3 : j - 1 + 1 = j := by omega
    rw [h1, h2, h3]
    rw [List.take_add, List.sum_append]
    ring

lemma moving_average_eq_naive (data : List ℚ) (w : ℕ) (hw : 0 < w)
    (hle : w ≤ data.length) :
    moving_average data w = (List.range (data.length - w + 1)).map
      (fun j => ((data.drop j).take w).sum / (w : ℚ)) := by
  have hnot : ¬ data.length < w := by omega
  rw [moving_average, if_neg hnot]
  have hss : (subShifted (cumsum data) w).length = data.length := by
    simp [subShifted, cumsum]
  apply List.ext_getElem
  · simp [hss]
    omega
  · intro j h1 h2
    simp only [List.getElem_map, List.getElem_drop, List.getElem_range]
    have hidx : w - 1 + j < data.length := by
      simp at h1
      omega
    have := subShifted_cumsum_getD data w j hw hidx
    rw [List.getD_eq_getElem _ _ (by omega : w - 1 + j < (subShifted (cumsum data) w).length)] at this
    rw [this]

/-- Claim C3: for every list `data` and positive window size `w`, if
`len(data) < w` then `moving_average(data, w)` returns `data` unchanged;
otherwise it returns exactly `len(data) - w + 1` values whose `j`-th entry
is the arithmetic mean of `data[j .. j+w-1]`, i.e. `moving_average` agrees
with the naive sliding-window reference implementation. -/
theorem C3_moving_average (data : List ℚ) (w : ℕ) (hw : 0 < w) :
    moving_average data w = naiveMovingAverage data w ∧
    (data.length < w → moving_average data w = data) ∧
    (w ≤ data.length →
      (moving_average data w).length = data.length - w + 1 ∧
      ∀ j, j < data.length - w + 1 →
        (moving_average data w).getD j 0 = ((data.drop j).take w).sum / (w : ℚ)) := by
  by_cases hlt : data.length < w
  · refine ⟨?_, fun _ => ?_, fun hle => absurd hle (by omega)⟩
    · rw [moving_average, naiveMovingAverage, if_pos hlt, if_pos hlt]
    · rw [moving_average, if_pos hlt]
  · have hle : w ≤ data.length := by omega
    have heq := moving_average_eq_naive data w hw hle
    have hnaive : naiveMovingAverage data w = (List.range (data.length - w + 1)).map
        (fun j => ((data.drop j).take w).sum / (w : ℚ)) := by
      rw [naiveMovingAverage, if_neg hlt]
    refine ⟨heq.trans hnaive.symm, fun h => absurd h hlt, fun _ => ⟨?_, ?_⟩⟩
    · rw [heq]
      simp
    · intro j hj
      rw [heq]
      rw [List.getD_eq_getElem _ _ (by simpa using hj)]
      simp

/-- Claim C3 witness: the theorem applied at a concrete input. -/
theorem C3_witness :
    moving_average [1, 2, 3, 4, 5, 6] 3 = naiveMovingAverage [1, 2, 3, 4, 5, 6] 3 :=
  (C3_moving_average [1, 2, 3, 4, 5, 6] 3 (by decide)).1

/-! ## Lemmas about find_triggers -/

lemma shift_forall (P : ℕ → Prop) (mw : ℕ) :
    (∀ k, k < mw → P (k + 1)) ↔ (∀ k, 1 ≤ k → k ≤ mw → P k) := by
  constructor
  · intro h k h1 h2
    have := h (k - 1) (by omega)
    rwa [show k - 1 + 1 = k by omega] at this
  · intro h k hk
    exact h (k + 1) (by omega) (by omega)

lemma codeCond_iff (data : List ℚ) (th : ℚ) (rising : Bool) (minWidth i : ℕ) :
    (crossingAt data th rising i && holdAt data th rising minWidth i) = true ↔
      triggerSpecOK data th rising minWidth i := by
  cases rising with
  | false =>
    simp [crossingAt, holdAt, triggerSpecOK, List.all_eq_true, List.mem_range,
      and_congr_right_iff]
    intro _ _
    exact shift_forall
      (fun k => i + k < data.length ∧ (data[i + k]?).getD 0 ≤ th) minWidth
  | true =>
    simp [crossingAt, holdAt, triggerSpecOK, List.all_eq_true, List.mem_range,
      and_congr_right_iff]
    intro _ _
    exact shift_forall
      (fun k => i + k < data.length ∧ th ≤ (data[i + k]?).getD 0) minWidth

lemma codeCond_eq_decide (data : List ℚ) (th : ℚ) (rising : Bool) (minWidth i : ℕ) :
    (crossingAt data th rising i && holdAt data th rising minWidth i) =
      decide (triggerSpecOK data th rising minWidth i) := by
  by_cases h : triggerSpecOK data th rising minWidth i
  · rw [decide_eq_true h, (codeCond_iff data th rising minWidth i).mpr h]
  · rw [decide_eq_false h]
    by_contra hb
    exact h ((codeCond_iff data th rising minWidth i).mp (by
      cases heq : (crossingAt data th rising i && holdAt data th rising minWidth i)
      · exact absurd heq hb
      · rfl))

lemma ftLoop_eq (data : List ℚ) (th : ℚ) (rising : Bool) (maxFound minWidth : ℕ)
    (l : List ℕ) : ∀ (acc : List ℕ), acc.length < maxFound →
    ftLoop data th rising maxFound minWidth l acc =
      acc ++ (l.filter (fun i => crossingAt data th rising i &&
        holdAt data th rising minWidth i)).take (maxFound - acc.length) := by
  induction l with
  | nil => intro acc _; simp [ftLoop]
  | cons i rest ih =>
    intro acc h
    cases hc : (crossingAt data th rising i && holdAt data th rising minWidth i) with
    | true =>
      by_cases hstop : maxFound ≤ acc.length + 1
      · have hstop' : maxFound ≤ (acc ++ [i]).length := by simpa using hstop
        have h1 : maxFound - acc.length = 1 := by omega
        simp only [ftLoop, hc, reduceIte, if_pos hstop']
        rw [List.filter_cons]
        simp [hc, h1]
      · have hlen : (acc ++ [i]).length < maxFound := by simp; omega
        have hstop' : ¬ maxFound ≤ (acc ++ [i]).length := by simpa using hstop
        have h2 : maxFound - acc.length = (maxFound - (acc ++ [i]).length) + 1 := by
          simp; omega
        simp only [ftLoop, hc, reduceIte, if_neg hstop']
        rw [ih _ hlen, List.filter_cons, h2]
        simp [hc]
    | false =>
      have hne : ¬ maxFound ≤ acc.length := by omega
      simp only [ftLoop, hc, Bool.false_eq_true, if_false, if_neg hne]
      rw [ih _ h, List.filter_cons]
      simp [hc]

/-- Claim C1: for every data list, threshold, direction and positive
`max_found`, `min_width`, `find_triggers` returns exactly the first (at most
`max_found`, in increasing order) indices `i` in `0 .. len(data)-min_width-1`
satisfying the crossing-plus-hold condition of `triggerSpecOK`, and no other
index; in particular the two concrete evaluations stated by the spec hold. -/
theorem C1_find_triggers :
    (∀ (data : List ℚ) (th : ℚ) (rising : Bool) (maxFound minWidth : ℕ),
      0 < maxFound → 0 < minWidth →
      find_triggers data th rising maxFound minWidth =
        ((List.range (data.length - minWidth)).filter
          (fun i => decide (triggerSpecOK data th rising minWidth i))).take maxFound) ∧
    find_triggers [2000, 2000, 3000, 3000, 3000, 3000] 2048 true 1 3 = [1] ∧
    find_triggers [2000, 3000, 2000, 3000, 3000] 2048 true 1 3 = [] := by
  refine ⟨?_, by decide, by decide⟩
  intro data th rising maxFound minWidth hmf _
  rw [find_triggers, ftLoop_eq data th rising maxFound minWidth _ [] (by simpa using hmf)]
  rw [List.filter_congr (fun i _ => codeCond_eq_decide data th rising minWidth i)]
  simp

/-- Claim C1 witness: the characterization applied at the concrete example. -/
theorem C1_witness :
    find_triggers [2000, 2000, 3000, 3000, 3000, 3000] 2048 true 1 3 =
      ((List.range (([2000, 2000, 3000, 3000, 3000, 3000] : List ℚ).length - 3)).filter
        (fun i => decide (triggerSpecOK [2000, 2000, 3000, 3000, 3000, 3000] 2048 true 3 i))).take 1 :=
  C1_find_triggers.1 [2000, 2000, 3000, 3000, 3000, 3000] 2048 true 1 3
    (by decide) (by decide)

/-! ## src/gui/src/serial_reader.py : frame extraction and decoding

The reader thread appends each serial chunk to a residual byte buffer and
then runs
```
while len(self._buf) >= self.frame_bytes:
    frame_bytes = bytes(self._buf[:self.frame_bytes])
    del self._buf[:self.frame_bytes]
    for i in range(0, len(frame_bytes), 4):
        lo1 = frame_bytes[i]; hi1 = frame_bytes[i+1]
        samples_ch1.append(((hi1 << 8) | lo1) & 0x0FFF)
        lo2 = frame_bytes[i+2]; hi2 = frame_bytes[i+3]
        samples_ch2.append(((hi2 << 8) | lo2) & 0x0FFF)
```
Bytes are modelled as `ℕ`.  The Python loop assumes `frame_bytes` is a
multiple of 4 (otherwise the last group would index out of range), and a
zero `frame_bytes` would loop forever; the claims below carry those
side conditions as hypotheses.
-/

/-- one decoded frame: a batch of samples for each channel. -/
structure SampleBatch where
  ch1 : List ℕ
  ch2 : List ℕ
deriving DecidableEq, Repr

instance : Inhabited SampleBatch := ⟨⟨[], []⟩⟩

/-- decoding of one frame into interleaved 4-byte groups
`(lo1, hi1, lo2, hi2)`. -/
def decodeFrame : List ℕ → SampleBatch
  | lo1 :: hi1 :: lo2 :: hi2 :: rest =>
    let b := decodeFrame rest
    ⟨((hi1 <<< 8 ||| lo1) &&& 0x0FFF) :: b.ch1,
     ((hi2 <<< 8 ||| lo2) &&& 0x0FFF) :: b.ch2⟩
  | _ => ⟨[], []⟩

/-- the `while len(buf) >= frame_bytes` extraction loop: repeatedly consume
leading `frameBytes`-sized chunks, returning the decoded batches in arrival
order together with the residual bytes. -/
def extractFrames (frameBytes : ℕ) (buf : List ℕ) : List SampleBatch × List ℕ :=
  if h : 0 < frameBytes ∧ frameBytes ≤ buf.length then
    let rest := extractFrames frameBytes (buf.drop frameBytes)
    (decodeFrame (buf.take frameBytes) :: rest.1, rest.2)
  else ([], buf)
termination_by buf.length
decreasing_by
  simp only [List.length_drop]
  omega

/-! ## Lemmas about the frame decoder -/

lemma decodeFrame_ch1_length (frame : List ℕ) (h : 4 ∣ frame.length) :
    (decodeFrame frame).ch1.length = frame.length / 4 := by
  induction frame using decodeFrame.induct with
  | case1 lo1 hi1 lo2 hi2 rest ih =>
    simp only [List.length_cons] at h ⊢
    have h4 : 4 ∣ rest.length := by omega
    rw [decodeFrame]
    simp only [List.length_cons, ih h4]
    omega
  | case2 frame hshape =>
    rcases frame with _ | ⟨a, _ | ⟨b, _ | ⟨c, _ | ⟨d, rest⟩⟩⟩⟩
    · rfl
    · simp only [List.length_cons, List.length_nil] at h; omega
    · simp only [List.length_cons, List.length_nil] at h; omega
    · simp only [List.length_cons, List.length_nil] at h; omega
    · exact (hshape a b c d rest rfl).elim

lemma decodeFrame_ch2_length (frame : List ℕ) (h : 4 ∣ frame.length) :
    (decodeFrame frame).ch2.length = frame.length / 4 := by
  induction frame using decodeFrame.induct with
  | case1 lo1 hi1 lo2 hi2 rest ih =>
    simp only [List.length_cons] at h ⊢
    have h4 : 4 ∣ rest.length := by omega
    rw [decodeFrame]
    simp only [List.length_cons, ih h4]
    omega
  | case2 frame hshape =>
    rcases frame with _ | ⟨a, _ | ⟨b, _ | ⟨c, _ | ⟨d, rest⟩⟩⟩⟩
    · rfl
    · simp only [List.length_cons, List.length_nil] at h; omega
    · simp only [List.length_cons, List.length_nil] at h; omega
    · simp only [List.length_cons, List.length_nil] at h; omega
    · exact (hshape a b c d rest rfl).elim

lemma decodeFrame_ch1_getD (frame : List ℕ) : ∀ g, 4 * g + 3 < frame.length →
    (decodeFrame frame).ch1.getD g 0 =
      ((frame.getD (4 * g + 1) 0) <<< 8 ||| frame.getD (4 * g) 0) &&& 0x0FFF := by
  induction frame using decodeFrame.induct with
  | case1 lo1 hi1 lo2 hi2 rest ih =>
    intro g hg
    cases g with
    | zero =>
      rw [decodeFrame]
      simp
    | succ g' =>
      rw [decodeFrame]
      simp only [Nat.mul_succ, List.getD_cons_succ]
      exact ih g' (by simp only [List.length_cons] at hg; omega)
  | case2 t hshape =>
    intro g hg
    rcases t with _ | ⟨a, _ | ⟨b, _ | ⟨c, _ | ⟨d, rest⟩⟩⟩⟩
    · simp at hg
    · simp only [List.length_cons, List.length_nil] at hg; omega
    · simp only [List.length_cons, List.length_nil] at hg; omega
    · simp only [List.length_cons, List.length_nil] at hg; omega
    · exact (hshape a b c d rest rfl).elim

lemma decodeFrame_ch2_getD (frame : List ℕ) : ∀ g, 4 * g + 3 < frame.length →
    (decodeFrame frame).ch2.getD g 0 =
      ((frame.getD (4 * g + 3) 0) <<< 8 ||| frame.getD (4 * g + 2) 0) &&& 0x0FFF := by
  induction frame using decodeFrame.induct with
  | case1 lo1 hi1 lo2 hi2 rest ih =>
    intro g hg
    cases g with
    | zero =>
      rw [decodeFrame]
      simp
    | succ g' =>
      rw [decodeFrame]
      simp only [Nat.mul_succ, List.getD_cons_succ]
      exact ih g' (by simp only [List.length_cons] at hg; omega)
  | case2 t hshape =>
    intro g hg
    rcases t with _ | ⟨a, _ | ⟨b, _ | ⟨c, _ | ⟨d, rest⟩⟩⟩⟩
    · simp at hg
    · simp only [List.length_cons, List.length_nil] at hg; omega
    · simp only [List.length_cons, List.length_nil] at hg; omega
    · simp only [List.length_cons, List.length_nil] at hg; omega
    · exact (hshape a b c d rest rfl).elim

lemma decodeFrame_samples_lt (frame : List ℕ) :
    (∀ s ∈ (decodeFrame frame).ch1, s < 4096) ∧
    (∀ s ∈ (decodeFrame frame).ch2, s < 4096) := by
  induction frame using decodeFrame.induct with
  | case1 lo1 hi1 lo2 hi2 rest ih =>
    rw [decodeFrame]
    constructor
    · intro s hs
      rcases List.mem_cons.mp hs with h | h
      · subst h
        exact lt_of_le_of_lt (Nat.and_le_right) (by norm_num)
      · exact ih.1 s h
    · intro s hs
      rcases List.mem_cons.mp hs with h | h
      · subst h
        exact lt_of_le_of_lt (Nat.and_le_right) (by norm_num)
      · exact ih.2 s h
  | case2 t hshape =>
    rcases t with _ | ⟨a, _ | ⟨b, _ | ⟨c, _ | ⟨d, rest⟩⟩⟩⟩
    · exact ⟨by simp [decodeFrame], by simp [decodeFrame]⟩
    · exact ⟨by simp [decodeFrame], by simp [decodeFrame]⟩
    · exact ⟨by simp [decodeFrame], by simp [decodeFrame]⟩
    · exact ⟨by simp [decodeFrame], by simp [decodeFrame]⟩
    · exact (hshape a b c d rest rfl).elim

lemma extractFrames_eq (fb : ℕ) (hfb : 0 < fb) : ∀ (k : ℕ) (r : ℕ) (buf : List ℕ),
    r < fb → buf.length = fb * k + r →
    extractFrames fb buf =
      ((List.range k).map (fun i => decodeFrame ((buf.drop (fb * i)).take fb)),
       buf.drop (fb * k)) := by
  intro k
  induction k with
  | zero =>
    intro r buf hr hlen
    rw [extractFrames, dif_neg (by omega)]
    simp
  | succ k' ih =>
    intro r buf hr hlen
    rw [Nat.mul_succ] at hlen
    rw [extractFrames, dif_pos ⟨hfb, by omega⟩]
    have hdrop : (buf.drop fb).length = fb * k' + r := by
      simp only [List.length_drop]
      omega
    rw [ih r (buf.drop fb) hr hdrop]
    refine Prod.ext ?_ ?_
    · simp only [List.range_succ_eq_map, List.map_cons, List.map_map]
      rw [show fb * 0 = 0 by ring, List.drop_zero]
      refine congrArg (decodeFrame (buf.take fb) :: ·) ?_
      refine List.map_congr_left ?_
      intro i _
      simp only [Function.comp_apply, List.drop_drop, Nat.succ_eq_add_one, Nat.mul_succ]
      rw [Nat.add_comm fb (fb * i)]
    · simp only [List.drop_drop, Nat.mul_succ]
      rw [Nat.add_comm fb (fb * k')]

lemma drop_take_getD (buf : List ℕ) (m fb j : ℕ) (hj : j < fb)
    (hlen : m + fb ≤ buf.length) :
    ((buf.drop m).take fb).getD j 0 = buf.getD (m + j) 0 := by
  have h1 : j < ((buf.drop m).take fb).length := by
    simp only [List.length_take, List.length_drop]
    omega
  have h2 : m + j < buf.length := by omega
  rw [List.getD_eq_getElem _ _ h1, List.getD_eq_getElem _ _ h2]
  rw [List.getElem_take, List.getElem_drop]

/-- Claim C2: one pass of the frame extractor over a residual buffer plus
newly appended bytes totalling `fb * k + r` bytes (`0 ≤ r < fb`) produces
exactly `k` sample batches and leaves exactly `r` residual bytes; within
each consumed frame the 4-byte groups `(lo1, hi1, lo2, hi2)` decode to
`((hi1 <<< 8) ||| lo1) &&& 0x0FFF` and `((hi2 <<< 8) ||| lo2) &&& 0x0FFF`,
every decoded sample is below 4096, both channels of a batch have
`fb / 4` samples, and batches appear in arrival order. -/
theorem C2_frame_extractor (fb : ℕ) (residual newBytes : List ℕ) (k r : ℕ)
    (hfb4 : 4 ∣ fb) (hfb : 0 < fb) (hr : r < fb)
    (hlen : (residual ++ newBytes).length = fb * k + r) :
    (extractFrames fb (residual ++ newBytes)).1.length = k ∧
    (extractFrames fb (residual ++ newBytes)).2.length = r ∧
    (extractFrames fb (residual ++ newBytes)).2 = (residual ++ newBytes).drop (fb * k) ∧
    (∀ b ∈ (extractFrames fb (residual ++ newBytes)).1,
      b.ch1.length = fb / 4 ∧ b.ch2.length = fb / 4 ∧
      (∀ s ∈ b.ch1, s < 4096) ∧ (∀ s ∈ b.ch2, s < 4096)) ∧
    (∀ i, i < k → (extractFrames fb (residual ++ newBytes)).1.getD i default =
      decodeFrame (((residual ++ newBytes).drop (fb * i)).take fb)) ∧
    (∀ i g, i < k → g < fb / 4 →
      ((extractFrames fb (residual ++ newBytes)).1.getD i default).ch1.getD g 0 =
        (((residual ++ newBytes).getD (fb * i + (4 * g + 1)) 0) <<< 8 |||
          (residual ++ newBytes).getD (fb * i + 4 * g) 0) &&& 0x0FFF ∧
      ((extractFrames fb (residual ++ newBytes)).1.getD i default).ch2.getD g 0 =
        (((residual ++ newBytes).getD (fb * i + (4 * g + 3)) 0) <<< 8 |||
          (residual ++ newBytes).getD (fb * i + (4 * g + 2)) 0) &&& 0x0FFF) := by
  set buf := residual ++ newBytes with hbuf
  have heq := extractFrames_eq fb hfb k r buf hr hlen
  have hfit : ∀ i, i < k → fb * i + fb ≤ buf.length := by
    intro i hi
    have h1 : fb * (i + 1) ≤ fb * k := Nat.mul_le_mul_left fb hi
    rw [Nat.mul_succ] at h1
    omega
  have hframe_len : ∀ i, i < k → ((buf.drop (fb * i)).take fb).length = fb := by
    intro i hi
    have h2 := hfit i hi
    simp only [List.length_take, List.length_drop]
    omega
  have hget : ∀ i, i < k → (extractFrames fb buf).1.getD i default =
      decodeFrame ((buf.drop (fb * i)).take fb) := by
    intro i hi
    rw [heq]
    have hlt : i < ((List.range k).map
        (fun i => decodeFrame ((buf.drop (fb * i)).take fb))).length := by
      simpa using hi
    rw [List.getD_eq_getElem _ _ hlt]
    simp
  refine ⟨?_, ?_, ?_, ?_, hget, ?_⟩
  · rw [heq]; simp
  · rw [heq]
    simp only [List.length_drop, hlen]
    exact Nat.add_sub_cancel_left (fb * k) r
  · rw [heq]
  · intro b hb
    rw [heq] at hb
    simp only [List.mem_map, List.mem_range] at hb
    obtain ⟨i, hi, rfl⟩ := hb
    have hfl := hframe_len i hi
    have h4 : 4 ∣ ((buf.drop (fb * i)).take fb).length := by rw [hfl]; exact hfb4
    refine ⟨?_, ?_, (decodeFrame_samples_lt _).1, (decodeFrame_samples_lt _).2⟩
    · rw [decodeFrame_ch1_length _ h4, hfl]
    · rw [decodeFrame_ch2_length _ h4, hfl]
  · intro i g hi hg
    rw [hget i hi]
    have hfl := hframe_len i hi
    have hg3 : 4 * g + 3 < ((buf.drop (fb * i)).take fb).length := by
      rw [hfl]; omega
    have hfit' := hfit i hi
    constructor
    · rw [decodeFrame_ch1_getD _ g hg3]
      rw [drop_take_getD buf _ fb _ (by omega) hfit',
          drop_take_getD buf _ fb _ (by omega) hfit']
    · rw [decodeFrame_ch2_getD _ g hg3]
      rw [drop_take_getD buf _ fb _ (by omega) hfit',
          drop_take_getD buf _ fb _ (by omega) hfit']

/-- Claim C2 witness: 19 bytes with `fb = 8` yield 2 batches and a 3-byte
residue. -/
theorem C2_witness :
    (extractFrames 8 ([1, 2, 3, 4] ++
      [5, 6, 7, 8, 9, 10, 11, 12, 13, 14, 15, 16, 17, 18, 19])).1.length = 2 ∧
    (extractFrames 8 ([1, 2, 3, 4] ++
      [5, 6, 7, 8, 9, 10, 11, 12, 13, 14, 15, 16, 17, 18, 19])).2.length = 3 := by
  have h := C2_frame_extractor 8 [1, 2, 3, 4]
    [5, 6, 7, 8, 9, 10, 11, 12, 13, 14, 15, 16, 17, 18, 19] 2 3
    (by decide) (by decide) (by decide) (by decide)
  exact ⟨h.1, h.2.1⟩

/-! ## src/gui/src/serial_reader.py : bounded hand-off queue

The producer pushes with
```
try: self.q.put_nowait(frame_data)
except queue.Full:
    try: _ = self.q.get_nowait()   # drop one (the oldest)
    except Exception: pass
    try: self.q.put_nowait(frame_data)
    except Exception: pass
```
and the consumer (gui.update_plot) drains the queue to the latest entry:
```
try:
    while True: latest = self.serial_queue.get_nowait()
except queue.Empty: pass
```
The queue has capacity 8 (`queue.Queue(maxsize=8)`).  A FIFO queue is
modelled as a list with the front at the head; under a single producer the
retry `put_nowait` after dropping one element always succeeds, which the
model captures directly.  Elements are abstracted to `ℕ` identifiers.
-/

/-- hand-off queue capacity (`maxsize=8`). -/
def QUEUE_CAP : ℕ := 8

/-- drop-oldest-on-full push used by the serial reader thread. -/
def qPush (q : List ℕ) (b : ℕ) : List ℕ :=
  if q.length < QUEUE_CAP then q ++ [b] else q.drop 1 ++ [b]

/-- the consumer drain loop: pop everything, keep the last element popped
(`none` when the queue was already empty). -/
def drainToLatest (q : List ℕ) : Option ℕ :=
  q.getLast?

/-- one step of the producer/consumer system: either the producer pushes a
batch or the consumer drains the queue to the latest entry (emptying it). -/
inductive QOp where
  | push (b : ℕ)
  | drainAll
deriving DecidableEq

/-- effect of an operation on the queue contents. -/
def qStep (q : List ℕ) : QOp → List ℕ
  | QOp.push b => qPush q b
  | QOp.drainAll => []

/-- Claim C4: for the capacity-8 hand-off queue under one producer and one
consumer: a push onto a full queue removes exactly one oldest element
before inserting, the queue length never exceeds 8 along any operation
sequence from the empty queue, a newly produced batch is never rejected
(it is always the newest element after its push), and draining to the
latest entry yields the most-recently-pushed element still enqueued. -/
theorem C4_handoff_queue :
    (∀ (ops : List QOp), (ops.foldl qStep []).length ≤ QUEUE_CAP) ∧
    (∀ (q : List ℕ) (b : ℕ), q.length = QUEUE_CAP → qPush q b = q.drop 1 ++ [b]) ∧
    (∀ (q : List ℕ) (b : ℕ), q.length ≤ QUEUE_CAP →
      (qPush q b).length ≤ QUEUE_CAP) ∧
    (∀ (q : List ℕ) (b : ℕ), (qPush q b).getLast? = some b) ∧
    (∀ (q : List ℕ), drainToLatest q = q.getLast?) := by
  have hlen : ∀ (q : List ℕ) (b : ℕ), q.length ≤ QUEUE_CAP →
      (qPush q b).length ≤ QUEUE_CAP := by
    intro q b hq
    rw [qPush]
    split <;>
      (simp only [List.length_append, List.length_singleton, List.length_drop,
        QUEUE_CAP] at *) <;>
      omega
  refine ⟨?_, ?_, hlen, ?_, fun _ => rfl⟩
  · intro ops
    induction ops using List.reverseRecOn with
    | nil => simp [QUEUE_CAP]
    | append_singleton ops op ih =>
      rw [List.foldl_append, List.foldl_cons, List.foldl_nil]
      cases op with
      | push b => exact hlen _ b ih
      | drainAll => simp [qStep, QUEUE_CAP]
  · intro q b hq
    rw [qPush, if_neg (by rw [hq]; exact lt_irrefl _)]
  · intro q b
    rw [qPush]
    split <;> simp

/-- Claim C4 witness: a push onto a full queue of 8 drops the oldest. -/
theorem C4_witness :
    qPush [1, 2, 3, 4, 5, 6, 7, 8] 9 = [1, 2, 3, 4, 5, 6, 7, 8].drop 1 ++ [9] :=
  C4_handoff_queue.2.1 [1, 2, 3, 4, 5, 6, 7, 8] 9 (by decide)

/-! ## src/gui/src/gui.py : ring buffers and display windowing

`MainWindow.__init__` creates `deque([0] * BUFFER_SIZE, maxlen=BUFFER_SIZE)`
per channel; `update_plot` appends every incoming sample (the deque evicts
from the oldest end at capacity), snapshots the buffer as a list, computes
`samples_to_show = max(100, min(int(time_per_div * FAKE_FS * 10), len(raw)))`
and selects the display window per trigger mode:
```
if AUTO:   trigger p and p+sts <= len  -> raw[p:p+sts]
           trigger p otherwise         -> raw[-sts:]
           no trigger                  -> raw[-sts:]
if NORMAL: trigger as in AUTO; no trigger -> []
```
-/

/-- trigger mode (`AUTO` / `NORMAL` combo box). -/
inductive TrigMode where
  | auto
  | normal
deriving DecidableEq

/-- Python slice `raw[-k:]` (for `k = 0` the slice `raw[0:]` is the whole
list, which the clamp `k >= 100` makes unreachable in the source). -/
def lastSlice (raw : List ℚ) (k : ℕ) : List ℚ :=
  if k = 0 then raw else raw.drop (raw.length - k)

/-- the display-window selection of `update_plot` for one channel, taking
the channel's trigger list (`find_triggers` result, possibly offset). -/
def selectWindow (mode : TrigMode) (raw : List ℚ) (triggers : List ℕ)
    (sts : ℕ) : List ℚ :=
  match mode, triggers with
  | TrigMode.auto, p :: _ =>
    if p + sts ≤ raw.length then (raw.drop p).take sts else lastSlice raw sts
  | TrigMode.auto, [] => lastSlice raw sts
  | TrigMode.normal, p :: _ =>
    if p + sts ≤ raw.length then (raw.drop p).take sts else lastSlice raw sts
  | TrigMode.normal, [] => []

/-- `samples_to_show = max(100, min(int(time_per_div * FAKE_FS * 10), L))`
(`int()` truncates; for the positive values produced by the slider this is
the floor, and a negative argument is absorbed by the `max 100` clamp). -/
def samplesToShow (timePerDiv : ℚ) (L : ℕ) : ℕ :=
  max 100 (min (Int.toNat (Int.floor (timePerDiv * FAKE_FS * 10))) L)

/-- a `deque(maxlen=cap)` append: evict the oldest element when full. -/
def ringAppend (cap : ℕ) (buf : List ℚ) (x : ℚ) : List ℚ :=
  if buf.length < cap then buf ++ [x] else buf.drop 1 ++ [x]

/-- ingesting a batch appends its samples in order. -/
def ingest (cap : ℕ) (buf : List ℚ) (batch : List ℚ) : List ℚ :=
  batch.foldl (ringAppend cap) buf

/-- the initial channel buffer `deque([0] * BUFFER_SIZE, maxlen=BUFFER_SIZE)`. -/
def initBuffer : List ℚ :=
  List.replicate BUFFER_SIZE 0

/-- Claim C6: with `samples_to_show` in the image of the `[100, L]` clamp
and not exceeding the buffer length, an AUTO window is `raw[p, p+sts)` for
a fitting trigger `p`, the last `sts` samples otherwise, and always holds
exactly `sts ≥ 100` samples; NORMAL behaves identically when a trigger
exists and yields the empty window when none does. -/
theorem C6_display_window (raw : List ℚ) (triggers : List ℕ) (x : ℕ)
    (hle : max 100 (min x raw.length) ≤ raw.length) :
    (selectWindow TrigMode.auto raw triggers (max 100 (min x raw.length))).length =
      max 100 (min x raw.length) ∧
    100 ≤ max 100 (min x raw.length) ∧
    (∀ p ts, triggers = p :: ts → p + max 100 (min x raw.length) ≤ raw.length →
      selectWindow TrigMode.auto raw triggers (max 100 (min x raw.length)) =
        (raw.drop p).take (max 100 (min x raw.length))) ∧
    (∀ p ts, triggers = p :: ts → raw.length < p + max 100 (min x raw.length) →
      selectWindow TrigMode.auto raw triggers (max 100 (min x raw.length)) =
        raw.drop (raw.length - max 100 (min x raw.length))) ∧
    (triggers = [] →
      selectWindow TrigMode.auto raw triggers (max 100 (min x raw.length)) =
        raw.drop (raw.length - max 100 (min x raw.length))) ∧
    (triggers ≠ [] →
      selectWindow TrigMode.normal raw triggers (max 100 (min x raw.length)) =
        selectWindow TrigMode.auto raw triggers (max 100 (min x raw.length))) ∧
    (triggers = [] →
      selectWindow TrigMode.normal raw triggers (max 100 (min x raw.length)) = []) := by
  set sts := max 100 (min x raw.length) with hsts
  have h100 : 100 ≤ sts := le_max_left _ _
  have hpos : sts ≠ 0 := by omega
  have hlast : lastSlice raw sts = raw.drop (raw.length - sts) := by
    rw [lastSlice, if_neg hpos]
  have hlastlen : (raw.drop (raw.length - sts)).length = sts := by
    simp only [List.length_drop]
    omega
  refine ⟨?_, h100, ?_, ?_, ?_, ?_, ?_⟩
  · cases triggers with
    | nil => rw [selectWindow]; rw [hlast, hlastlen]
    | cons p ts =>
      rw [selectWindow]
      split
      · simp only [List.length_take, List.length_drop]
        omega
      · rw [hlast, hlastlen]
  · intro p ts htr hfit
    subst htr
    rw [selectWindow, if_pos hfit]
  · intro p ts htr hnofit
    subst htr
    rw [selectWindow, if_neg (by omega), hlast]
  · intro htr
    subst htr
    rw [selectWindow, hlast]
  · intro htr
    cases triggers with
    | nil => exact absurd rfl htr
    | cons p ts => rw [selectWindow, selectWindow]
  · intro htr
    subst htr
    rw [selectWindow]

/-- Claim C6 witness: on a 120-sample buffer with a fitting trigger at 5,
the AUTO window is the 100-sample slice starting at the trigger. -/
theorem C6_witness :
    selectWindow TrigMode.auto (List.replicate 120 0) [5]
        (max 100 (min 50 (List.replicate (120 : ℕ) (0 : ℚ)).length)) =
      ((List.replicate 120 (0 : ℚ)).drop 5).take
        (max 100 (min 50 (List.replicate (120 : ℕ) (0 : ℚ)).length)) :=
  (C6_display_window (List.replicate 120 0) [5] 50 (by simp)).2.2.1 5 []
    rfl (by simp)

/-- Claim C10: each channel ring buffer starts as 8000 zeros with fixed
capacity 8000, every ingest preserves length exactly 8000 (so snapshots
always hold 8000 samples, zero-padded at the oldest end until enough real
data has arrived), and the `samples_to_show` clamp against such a buffer
is bounded by `[100, 8000]`. -/
theorem C10_ring_buffer :
    initBuffer.length = 8000 ∧
    BUFFER_SIZE = 8000 ∧
    (∀ (buf batch : List ℚ), buf.length = BUFFER_SIZE →
      (ingest BUFFER_SIZE buf batch).length = BUFFER_SIZE) ∧
    (∀ (batches : List (List ℚ)),
      (batches.foldl (ingest BUFFER_SIZE) initBuffer).length = BUFFER_SIZE) ∧
    (∀ (batch : List ℚ), batch.length ≤ BUFFER_SIZE →
      ingest BUFFER_SIZE initBuffer batch =
        List.replicate (BUFFER_SIZE - batch.length) 0 ++ batch) ∧
    (∀ (tpd : ℚ), 100 ≤ samplesToShow tpd BUFFER_SIZE ∧
      samplesToShow tpd BUFFER_SIZE ≤ BUFFER_SIZE) := by
  have hstep : ∀ (buf : List ℚ) (x : ℚ), buf.length = BUFFER_SIZE →
      (ringAppend BUFFER_SIZE buf x).length = BUFFER_SIZE := by
    intro buf x hb
    rw [ringAppend, if_neg (by rw [hb]; exact lt_irrefl _)]
    simp only [List.length_append, List.length_singleton, List.length_drop, hb]
    rw [BUFFER_SIZE]
  have hing : ∀ (batch buf : List ℚ), buf.length = BUFFER_SIZE →
      (ingest BUFFER_SIZE buf batch).length = BUFFER_SIZE := by
    intro batch
    induction batch with
    | nil => intro buf hb; exact hb
    | cons b bs ih =>
      intro buf hb
      rw [ingest, List.foldl_cons]
      exact ih _ (hstep buf b hb)
  have hinit : initBuffer.length = BUFFER_SIZE := by
    rw [initBuffer, List.length_replicate]
  refine ⟨by rw [initBuffer, List.length_replicate, BUFFER_SIZE], rfl,
    fun buf batch hb => hing batch buf hb, ?_, ?_, ?_⟩
  · intro batches
    induction batches using List.reverseRecOn with
    | nil => exact hinit
    | append_singleton bs b ih =>
      rw [List.foldl_append, List.foldl_cons, List.foldl_nil]
      exact hing b _ ih
  · intro batch
    induction batch using List.reverseRecOn with
    | nil => intro _; simp [ingest, initBuffer]
    | append_singleton bs b ih =>
      intro hlen
      have hbs : bs.length ≤ BUFFER_SIZE := by
        simp only [List.length_append, List.length_singleton] at hlen
        omega
      rw [ingest, List.foldl_append, List.foldl_cons, List.foldl_nil]
      rw [show bs.foldl (ringAppend BUFFER_SIZE) initBuffer = ingest BUFFER_SIZE initBuffer bs from rfl]
      rw [ih hbs]
      have hfull : (List.replicate (BUFFER_SIZE - bs.length) (0 : ℚ) ++ bs).length =
          BUFFER_SIZE := by
        simp only [List.length_append, List.length_replicate]
        omega
      rw [ringAppend, if_neg (by rw [hfull]; exact lt_irrefl _)]
      have hrep : BUFFER_SIZE - bs.length = (BUFFER_SIZE - (bs ++ [b]).length) + 1 := by
        simp only [List.length_append, List.length_singleton] at hlen ⊢
        omega
      rw [hrep, List.replicate_succ, List.cons_append, List.drop_one, List.tail_cons,
        List.append_assoc]
  · intro tpd
    constructor
    · exact le_max_left _ _
    · have : min (Int.toNat (Int.floor (tpd * FAKE_FS * 10))) BUFFER_SIZE ≤
          BUFFER_SIZE := min_le_right _ _
      rw [samplesToShow]
      rw [BUFFER_SIZE] at this ⊢
      omega

/-- Claim C10 witness: ingesting three samples into a full zero buffer
keeps the length at capacity. -/
theorem C10_witness :
    (ingest BUFFER_SIZE (List.replicate BUFFER_SIZE (0 : ℚ)) [1, 2, 3]).length =
      BUFFER_SIZE :=
  C10_ring_buffer.2.2.1 (List.replicate BUFFER_SIZE 0) [1, 2, 3] (by simp)

/-! ## src/gui/src/gui.py : smart auto-scaling (update_plot, time-domain path)

```
if all_data:
    curr_min = min(all_data); curr_max = max(all_data)
    margin = (curr_max - curr_min) * 0.1 if (curr_max - curr_min) > 0 else 0.1
    target_y_min = curr_min - margin; target_y_max = curr_max + margin
    padding_samples = int(N * 0.02)
    self.x_min = -padding_samples / FAKE_FS
    self.x_max = (N + padding_samples) / FAKE_FS
    expanded = False
    if target_y_min < self.y_min: self.y_min = target_y_min; expanded = True
    if target_y_max > self.y_max: self.y_max = target_y_max; expanded = True
    if expanded: self.last_expansion_time = now
    elif (now - self.last_expansion_time) > self.auto_scale_timeout:
        self.y_min = target_y_min; self.y_max = target_y_max
        self.last_expansion_time = now
```
Times are modelled as exact rationals.
-/

/-- the mutable scale state owned by the consumer. -/
structure ScaleState where
  xMin : ℚ
  xMax : ℚ
  yMin : ℚ
  yMax : ℚ
  lastExpansion : ℚ
deriving DecidableEq

/-- contraction holdoff (`auto_scale_timeout = 5.0` seconds). -/
def AUTO_SCALE_TIMEOUT : ℚ := 5

/-- Python `min(list)` on a nonempty list (0 on the empty list, which the
`if all_data:` guard makes unreachable). -/
def listMinQ : List ℚ → ℚ
  | [] => 0
  | v :: vs => vs.foldl min v

/-- Python `max(list)` on a nonempty list. -/
def listMaxQ : List ℚ → ℚ
  | [] => 0
  | v :: vs => vs.foldl max v

/-- Y margin: 10% of the data span, or 0.1 V for flat data. -/
def scaleMargin (allData : List ℚ) : ℚ :=
  if 0 < listMaxQ allData - listMinQ allData
  then (listMaxQ allData - listMinQ allData) * (1 / 10)
  else 1 / 10

/-- target lower Y bound for the tick. -/
def targetYMin (allData : List ℚ) : ℚ :=
  listMinQ allData - scaleMargin allData

/-- target upper Y bound for the tick. -/
def targetYMax (allData : List ℚ) : ℚ :=
  listMaxQ allData + scaleMargin allData

/-- `padding_samples = int(N * 0.02)` (truncation = floor for the
nonnegative `N`). -/
def xPadSamples (N : ℕ) : ℕ := N * 2 / 100

/-- one auto-scaler update step of `update_plot`. -/
def autoScaleStep (s : ScaleState) (allData : List ℚ) (N : ℕ) (now : ℚ) :
    ScaleState :=
  match allData with
  | [] => s
  | _ :: _ =>
    let tymin := targetYMin allData
    let tymax := targetYMax allData
    let pad := xPadSamples N
    let s1 : ScaleState := { s with xMin := -((pad : ℚ) / FAKE_FS),
                                    xMax := ((N : ℚ) + (pad : ℚ)) / FAKE_FS }
    let expanded := tymin < s.yMin ∨ tymax > s.yMax
    let s2 : ScaleState := { s1 with
      yMin := if tymin < s.yMin then tymin else s.yMin,
      yMax := if tymax > s.yMax then tymax else s.yMax }
    if expanded then { s2 with lastExpansion := now }
    else if now - s.lastExpansion > AUTO_SCALE_TIMEOUT then
      { s2 with yMin := tymin, yMax := tymax, lastExpansion := now }
    else s2

/-- Claim C5: on every auto-scaler step with data present, a target bound
wider than the stored range is adopted immediately and stamps
`last_expansion_time = now`; the Y range is never narrowed within the 5 s
timeout of the last expansion; an actual contraction happens only once the
timeout is exceeded, adopting both target bounds and resetting the
timestamp; and the X range is recomputed unconditionally with the
2%-of-N padding. -/
theorem C5_auto_scaler (s : ScaleState) (allData : List ℚ) (N : ℕ) (now : ℚ)
    (hne : allData ≠ []) :
    (targetYMin allData < s.yMin →
      (autoScaleStep s allData N now).yMin = targetYMin allData ∧
      (autoScaleStep s allData N now).lastExpansion = now) ∧
    (s.yMax < targetYMax allData →
      (autoScaleStep s allData N now).yMax = targetYMax allData ∧
      (autoScaleStep s allData N now).lastExpansion = now) ∧
    (now - s.lastExpansion ≤ AUTO_SCALE_TIMEOUT →
      (autoScaleStep s allData N now).yMin ≤ s.yMin ∧
      s.yMax ≤ (autoScaleStep s allData N now).yMax) ∧
    ((s.yMin < (autoScaleStep s allData N now).yMin ∨
      (autoScaleStep s allData N now).yMax < s.yMax) →
      AUTO_SCALE_TIMEOUT < now - s.lastExpansion ∧
      (autoScaleStep s allData N now).yMin = targetYMin allData ∧
      (autoScaleStep s allData N now).yMax = targetYMax allData ∧
      (autoScaleStep s allData N now).lastExpansion = now) ∧
    ((autoScaleStep s allData N now).xMin = -((xPadSamples N : ℚ) / FAKE_FS) ∧
     (autoScaleStep s allData N now).xMax =
       ((N : ℚ) + (xPadSamples N : ℚ)) / FAKE_FS) := by
  obtain ⟨v, vs, rfl⟩ : ∃ v vs, allData = v :: vs := by
    cases allData with
    | nil => exact absurd rfl hne
    | cons v vs => exact ⟨v, vs, rfl⟩
  set t1 := targetYMin (v :: vs) with ht1
  set t2 := targetYMax (v :: vs) with ht2
  simp only [autoScaleStep]
  by_cases hexp : t1 < s.yMin ∨ t2 > s.yMax
  · rw [if_pos hexp]
    have hy1 : (if t1 < s.yMin then t1 else s.yMin) ≤ s.yMin := by
      split
      · exact le_of_lt (by assumption)
      · exact le_refl _
    have hy2 : s.yMax ≤ (if s.yMax < t2 then t2 else s.yMax) := by
      split
      · exact le_of_lt (by assumption)
      · exact le_refl _
    refine ⟨?_, ?_, ?_, ?_, by simp⟩
    · intro h1
      simp [if_pos h1]
    · intro h2
      simp [if_pos (show t2 > s.yMax from h2)]
    · intro _
      exact ⟨hy1, hy2⟩
    · intro hcon
      exfalso
      rcases hcon with h | h
      · exact absurd h (not_lt.mpr hy1)
      · exact absurd h (not_lt.mpr hy2)
  · rw [if_neg hexp]
    push_neg at hexp
    obtain ⟨hge1, hge2⟩ := hexp
    have hnot1 : ¬ t1 < s.yMin := not_lt.mpr hge1
    have hnot2 : ¬ t2 > s.yMax := not_lt.mpr hge2
    by_cases htime : now - s.lastExpansion > AUTO_SCALE_TIMEOUT
    · rw [if_pos htime]
      refine ⟨fun h1 => absurd h1 hnot1, fun h2 => absurd h2 hnot2, ?_, ?_, by simp⟩
      · intro htl
        exfalso
        rw [AUTO_SCALE_TIMEOUT] at *
        linarith
      · intro _
        exact ⟨htime, by simp, by simp, by simp⟩
    · rw [if_neg htime]
      refine ⟨fun h1 => absurd h1 hnot1, fun h2 => absurd h2 hnot2, ?_, ?_, by simp⟩
      · intro _
        constructor
        · simp [if_neg hnot1]
        · simp [if_neg hnot2]
      · intro hcon
        exfalso
        rcases hcon with h | h
        · simp [if_neg hnot1] at h
        · simp [if_neg hnot2] at h

lemma targetYMin_neg_pair_lt_zero : targetYMin [-1, -1] < (0 : ℚ) := by
  rw [targetYMin, scaleMargin]
  norm_num [listMinQ, listMaxQ]

/-- Claim C5 witness: a flat two-sample window below the stored range
expands the lower bound immediately and stamps the expansion time. -/
theorem C5_witness :
    (autoScaleStep ⟨0, 100, 0, 33 / 10, 0⟩ [-1, -1] 2 7).yMin = targetYMin [-1, -1] ∧
    (autoScaleStep ⟨0, 100, 0, 33 / 10, 0⟩ [-1, -1] 2 7).lastExpansion = 7 :=
  (C5_auto_scaler ⟨0, 100, 0, 33 / 10, 0⟩ [-1, -1] 2 7 (by decide)).1
    targetYMin_neg_pair_lt_zero

/-! ## src/gui/src/gui.py : the update_plot tick pipeline

The model covers the time-domain display path of `MainWindow.update_plot`:
freeze check, acquisition of one raw sample pair, buffer ingestion,
`samples_to_show`, per-channel triggering (optionally on the
moving-average-filtered series, with the `window-1` index correction),
display-window selection, the NORMAL-mode suppression check, voltage
conversion (`VREF/ADC_MAX` counts-to-volts, identical for the UART and the
fake source, then offset and the two multipliers), auto-scaling, curve
data and the measurement labels.  The FFT display branch (`fft_mode`) is
not modelled; the NORMAL-mode suppression this development reasons about
happens before that branch.  A measurement label is represented by the
voltage window handed to `calculate_measurements` (`noMeas` standing for
the `m1 is None` text, which occurs exactly when the window has fewer
than 10 samples).
-/

/-- per-channel measurement label state. -/
inductive MeasDisplay where
  | channelOff
  | noMeas
  | measured (volts : List ℚ)
deriving DecidableEq

/-- the GUI state touched by one update_plot tick. -/
structure TickState where
  isFrozen : Bool
  trigMode : TrigMode
  trigRising : Bool
  threshold1 : ℚ
  threshold2 : ℚ
  useTrigFilter : Bool
  trigAvgWindow : ℕ
  timePerDiv : ℚ
  autoScaleEnabled : Bool
  ch1Enabled : Bool
  ch2Enabled : Bool
  ch1Offset : ℚ
  ch2Offset : ℚ
  voltageMult1 : ℚ
  voltageMult2 : ℚ
  buf1 : List ℚ
  buf2 : List ℚ
  lastDataVolts : Option (List ℚ × List ℚ)
  scale : ScaleState
  curve1 : List (ℚ × ℚ)
  curve2 : List (ℚ × ℚ)
  meas1 : MeasDisplay
  meas2 : MeasDisplay

/-- trigger source: the moving average of the snapshot when the filter is
enabled, the raw snapshot otherwise. -/
def trigSource (useFilter : Bool) (w : ℕ) (raw : List ℚ) : List ℚ :=
  if useFilter then moving_average raw w else raw

/-- the `t + offset` correction mapping filtered-series indices back to
raw-buffer indices (`offset = trigger_avg_window - 1`). -/
def offsetTriggers (useFilter : Bool) (w : ℕ) (tr : List ℕ) : List ℕ :=
  if useFilter then tr.map (fun t => t + (w - 1)) else tr

/-- per-channel triggers of one tick (`max_found=1`, `min_width=3`). -/
def tickTriggers (useFilter : Bool) (w : ℕ) (th : ℚ) (rising : Bool)
    (raw : List ℚ) : List ℕ :=
  offsetTriggers useFilter w (find_triggers (trigSource useFilter w raw) th rising 1 3)

/-- the display window of one channel on one tick. -/
def tickWindowCh (mode : TrigMode) (rising : Bool) (useFilter : Bool) (w : ℕ)
    (th : ℚ) (buf : List ℚ) (sts : ℕ) : List ℚ :=
  selectWindow mode buf (tickTriggers useFilter w th rising buf) sts

/-- counts-to-display-volts conversion of one channel:
`(x * VREF/ADC_MAX + offset) * VOLTAGE_MULT * voltage_mult`. -/
def tickVolts (offset mult vm : ℚ) (data : List ℚ) : List ℚ :=
  data.map (fun x => (x * (VREF / (ADC_MAX : ℚ)) + offset) * vm * mult)

/-- measurement label written by the tick for one channel. -/
def tickMeas (enabled : Bool) (volts : List ℚ) : MeasDisplay :=
  if enabled ∧ volts ≠ [] then
    (if volts.length < 10 then MeasDisplay.noMeas else MeasDisplay.measured volts)
  else MeasDisplay.channelOff

/-- one update_plot tick (time-domain path); `raw` is the sample pair
pulled from the hand-off queue or the fake source (`none` when no new
frame is available), `now` the tick time. -/
def updatePlot (st : TickState) (raw : Option (List ℚ × List ℚ)) (now : ℚ) :
    TickState :=
  if st.isFrozen then st
  else match raw with
  | none => st
  | some (r1, r2) =>
    let buf1 := ingest BUFFER_SIZE st.buf1 r1
    let buf2 := ingest BUFFER_SIZE st.buf2 r2
    let sts := samplesToShow st.timePerDiv buf1.length
    let d1 := tickWindowCh st.trigMode st.trigRising st.useTrigFilter
      st.trigAvgWindow st.threshold1 buf1 sts
    let d2 := tickWindowCh st.trigMode st.trigRising st.useTrigFilter
      st.trigAvgWindow st.threshold2 buf2 sts
    if st.trigMode = TrigMode.normal ∧ (d1 = [] ∨ d2 = []) then
      { st with buf1 := buf1, buf2 := buf2 }
    else
      let volts1 := tickVolts st.ch1Offset st.voltageMult1 VOLTAGE_MULT_CH1 d1
      let volts2 := tickVolts st.ch2Offset st.voltageMult2 VOLTAGE_MULT_CH2 d2
      let scale' := if st.autoScaleEnabled then
        autoScaleStep st.scale (volts1 ++ volts2)
          (max volts1.length volts2.length) now
      else st.scale
      let t := (List.range volts1.length).map (fun i => (i : ℚ) / FAKE_FS)
      { st with
        buf1 := buf1
        buf2 := buf2
        lastDataVolts := some (volts1, volts2)
        scale := scale'
        curve1 := if st.ch1Enabled then t.zip volts1 else st.curve1
        curve2 := if st.ch2Enabled then t.zip volts2 else st.curve2
        meas1 := tickMeas st.ch1Enabled volts1
        meas2 := tickMeas st.ch2Enabled volts2 }

/-- Claim C7: on a NORMAL-mode tick in which either channel's selected
window is empty, the tick only ingests the new samples into the ring
buffers and suppresses every other update: `last_data_volts`, the scale
state, the rendered curves and both measurement labels are unchanged. -/
theorem C7_normal_mode_suppression (st : TickState) (r1 r2 : List ℚ) (now : ℚ)
    (hfr : st.isFrozen = false)
    (hmode : st.trigMode = TrigMode.normal)
    (hempty :
      tickWindowCh st.trigMode st.trigRising st.useTrigFilter st.trigAvgWindow
        st.threshold1 (ingest BUFFER_SIZE st.buf1 r1)
        (samplesToShow st.timePerDiv (ingest BUFFER_SIZE st.buf1 r1).length) = [] ∨
      tickWindowCh st.trigMode st.trigRising st.useTrigFilter st.trigAvgWindow
        st.threshold2 (ingest BUFFER_SIZE st.buf2 r2)
        (samplesToShow st.timePerDiv (ingest BUFFER_SIZE st.buf1 r1).length) = []) :
    updatePlot st (some (r1, r2)) now =
      { st with buf1 := ingest BUFFER_SIZE st.buf1 r1,
                buf2 := ingest BUFFER_SIZE st.buf2 r2 } ∧
    (updatePlot st (some (r1, r2)) now).lastDataVolts = st.lastDataVolts ∧
    (updatePlot st (some (r1, r2)) now).scale = st.scale ∧
    (updatePlot st (some (r1, r2)) now).curve1 = st.curve1 ∧
    (updatePlot st (some (r1, r2)) now).curve2 = st.curve2 ∧
    (updatePlot st (some (r1, r2)) now).meas1 = st.meas1 ∧
    (updatePlot st (some (r1, r2)) now).meas2 = st.meas2 := by
  have hu : updatePlot st (some (r1, r2)) now =
      { st with buf1 := ingest BUFFER_SIZE st.buf1 r1,
                buf2 := ingest BUFFER_SIZE st.buf2 r2 } := by
    rw [updatePlot, hfr]
    simp only [Bool.false_eq_true, if_false]
    rw [if_pos ⟨hmode, hempty⟩]
  refine ⟨hu, ?_, ?_, ?_, ?_, ?_, ?_⟩ <;> rw [hu]

/-- Claim C7 witness: a NORMAL-mode tick on constant data (no crossing,
hence no trigger) leaves the non-buffer state untouched. -/
theorem C7_witness :
    (updatePlot
      ⟨false, TrigMode.normal, true, 2048, 2048, false, 5, 1, true, true, true,
        0, 0, 1, 1, [], [], none, ⟨0, 100, 0, 33 / 10, 0⟩, [], [],
        MeasDisplay.channelOff, MeasDisplay.channelOff⟩
      (some ([0, 0, 0], [0, 0, 0])) 0).lastDataVolts =
    (⟨false, TrigMode.normal, true, 2048, 2048, false, 5, 1, true, true, true,
        0, 0, 1, 1, [], [], none, ⟨0, 100, 0, 33 / 10, 0⟩, [], [],
        MeasDisplay.channelOff, MeasDisplay.channelOff⟩ : TickState).lastDataVolts :=
  (C7_normal_mode_suppression
    ⟨false, TrigMode.normal, true, 2048, 2048, false, 5, 1, true, true, true,
      0, 0, 1, 1, [], [], none, ⟨0, 100, 0, 33 / 10, 0⟩, [], [],
      MeasDisplay.channelOff, MeasDisplay.channelOff⟩
    [0, 0, 0] [0, 0, 0] 0 rfl rfl (Or.inl (by decide))).2.1

/-! ## src/gui/src/gui.py : audio callback (audio_callback)

```
ratio = self.audio_sample_rate / FAKE_FS        # 44100 / 50000
input_needed = int(frames / ratio) + 2
if len(volts) >= input_needed: audio_data = volts[-input_needed:]
else: audio_data = (volts * ((input_needed // len(volts)) + 1))[:input_needed]
x_old = np.arange(len(audio_data))
x_new = np.linspace(0, len(audio_data) - 1, frames)
resampled = interp1d(x_old, audio_data, kind='linear')(x_new)
normalized = np.clip((resampled - 1.65) / 1.65 * volume, -1.0, 1.0)
```
`int()` truncates toward zero, which for the nonnegative `frames / ratio`
is the floor.
-/

/-- output sample rate (`audio_sample_rate = 44100`). -/
def AUDIO_RATE : ℚ := 44100

/-- the resampling ratio `audio_sample_rate / FAKE_FS`. -/
def audioRatio : ℚ := AUDIO_RATE / FAKE_FS

/-- mid-scale reference voltage `1.65` used for audio normalization. -/
def MID_VREF : ℚ := 33 / 20

/-- `input_needed = int(frames / ratio) + 2` as the code computes it. -/
def inputNeeded (frames : ℕ) : ℕ :=
  (Int.floor ((frames : ℚ) / audioRatio)).toNat + 2

/-- Modelled from the spec: the claimed input count
`ceil(frames / ratio) + 2` (the code of `audio_callback` itself uses
`int(...)`, i.e. the floor). -/
def specInputNeeded (frames : ℕ) : ℕ :=
  (Int.ceil ((frames : ℚ) / audioRatio)).toNat + 2

/-- `(volts * ((input_needed // len(volts)) + 1))[:input_needed]`:
cyclic repetition padding when history is short. -/
def cyclicPad (volts : List ℚ) (n : ℕ) : List ℚ :=
  (List.flatten (List.replicate (n / volts.length + 1) volts)).take n

/-- the input slice handed to the interpolator. -/
def audioData (volts : List ℚ) (n : ℕ) : List ℚ :=
  if n ≤ volts.length then lastSlice volts n else cyclicPad volts n

/-- abscissa `i` of `np.linspace(0, m, frames)`. -/
def linspacePt (m : ℚ) (frames i : ℕ) : ℚ :=
  if frames ≤ 1 then 0 else (i : ℚ) * m / ((frames : ℚ) - 1)

/-- linear interpolation of `interp1d(kind='linear')` at abscissa `x`
over unit-spaced samples. -/
def interpAt (a : List ℚ) (x : ℚ) : ℚ :=
  let j := (Int.floor x).toNat
  let aj := a.getD j 0
  aj + (x - (j : ℚ)) * (a.getD (j + 1) 0 - aj)

/-- `np.clip(x, -1.0, 1.0)`. -/
def clipUnit (x : ℚ) : ℚ := min (max x (-1)) 1

/-- the audio callback: fills `frames` output samples from the latest
converted ch1 window (silence when no data or fewer than 10 samples). -/
def audio_callback (lastCh1 : Option (List ℚ)) (frames : ℕ) (volume : ℚ) :
    List ℚ :=
  match lastCh1 with
  | none => List.replicate frames 0
  | some volts =>
    if volts.length < 10 then List.replicate frames 0
    else
      let a := audioData volts (inputNeeded frames)
      (List.range frames).map (fun i =>
        clipUnit ((interpAt a (linspacePt ((a.length : ℚ) - 1) frames i) - MID_VREF) /
          MID_VREF * volume))

/-! ## Lemmas about the audio path -/

lemma length_flatten_replicate (k : ℕ) (xs : List ℚ) :
    (List.flatten (List.replicate k xs)).length = k * xs.length := by
  induction k with
  | zero => simp
  | succ k ih =>
    simp only [List.replicate_succ, List.flatten_cons, List.length_append, ih]
    ring

lemma flatten_replicate_getD (xs : List ℚ) (hxs : xs ≠ []) :
    ∀ (k i : ℕ), i < k * xs.length →
    (List.flatten (List.replicate k xs)).getD i 0 = xs.getD (i % xs.length) 0 := by
  have hlen : 0 < xs.length := List.length_pos.mpr hxs
  intro k
  induction k with
  | zero => intro i hi; simp at hi
  | succ k ih =>
    intro i hi
    simp only [List.replicate_succ, List.flatten_cons]
    by_cases hcase : i < xs.length
    · rw [List.getD_append _ _ _ _ hcase, Nat.mod_eq_of_lt hcase]
    · push_neg at hcase
      rw [List.getD_append_right _ _ _ _ hcase]
      have hi' : i - xs.length < k * xs.length := by
        rw [Nat.succ_mul] at hi
        omega
      rw [ih (i - xs.length) hi']
      congr 1
      conv_rhs => rw [show i = (i - xs.length) + xs.length by omega]
      rw [Nat.add_mod_right]

lemma cyclicPad_length (volts : List ℚ) (n : ℕ) (hv : volts ≠ []) :
    (cyclicPad volts n).length = n := by
  have hlen : 0 < volts.length := List.length_pos.mpr hv
  rw [cyclicPad, List.length_take, length_flatten_replicate, Nat.succ_mul]
  have h2 : n / volts.length * volts.length + n % volts.length = n :=
    Nat.div_add_mod' n volts.length
  have h3 := Nat.mod_lt n hlen
  exact min_eq_left (by omega)

lemma audioData_length (volts : List ℚ) (n : ℕ) (hv : volts ≠ []) (hn : 0 < n) :
    (audioData volts n).length = n := by
  rw [audioData]
  split
  · rw [lastSlice, if_neg (by omega)]
    simp only [List.length_drop]
    omega
  · exact cyclicPad_length volts n hv

/-- Claim C9 counterexample: at the stream's block size of 1024 frames the
code pulls `int(frames/ratio) + 2 = 1162` input samples, not the claimed
`ceil(frames/ratio) + 2 = 1163`. -/
theorem C9_counterexample :
    inputNeeded 1024 = 1162 ∧ specInputNeeded 1024 = 1163 ∧
    inputNeeded 1024 ≠ specInputNeeded 1024 := by
  have hval : (((1024 : ℕ) : ℚ) / audioRatio) = 512000 / 441 := by
    rw [audioRatio, AUDIO_RATE, FAKE_FS]
    norm_num
  have hfloor : Int.floor (((1024 : ℕ) : ℚ) / audioRatio) = 1160 := by
    rw [hval, Int.floor_eq_iff]
    norm_num
  have hceil : Int.ceil (((1024 : ℕ) : ℚ) / audioRatio) = 1161 := by
    rw [hval, Int.ceil_eq_iff]
    norm_num
  refine ⟨?_, ?_, ?_⟩
  · rw [inputNeeded, hfloor]; rfl
  · rw [specInputNeeded, hceil]; rfl
  · rw [inputNeeded, specInputNeeded, hfloor, hceil]; decide

/-- Claim C9 (amended: the input pull count is `int(frames/ratio) + 2`,
i.e. the floor, not the ceiling): with no waveform data the callback
outputs exactly `frames` zeros; with a ch1 window of at least 10 samples
it pulls the most recent `int(frames/ratio) + 2` samples (cyclically
repeating the available samples when fewer exist), emits exactly `frames`
samples, each the linear interpolation of the padded input normalized by
`(v - 1.65)/1.65`, scaled by the volume gain and clamped to `[-1, 1]`. -/
theorem C9_audio_callback :
    (∀ (frames : ℕ) (volume : ℚ),
      audio_callback none frames volume = List.replicate frames 0) ∧
    (∀ (volts : List ℚ) (frames : ℕ) (volume : ℚ), 10 ≤ volts.length →
      inputNeeded frames = (Int.floor ((frames : ℚ) / audioRatio)).toNat + 2 ∧
      (audioData volts (inputNeeded frames)).length = inputNeeded frames ∧
      (inputNeeded frames ≤ volts.length →
        audioData volts (inputNeeded frames) =
          volts.drop (volts.length - inputNeeded frames)) ∧
      (volts.length < inputNeeded frames →
        ∀ i, i < inputNeeded frames →
          (audioData volts (inputNeeded frames)).getD i 0 =
            volts.getD (i % volts.length) 0) ∧
      (audio_callback (some volts) frames volume).length = frames ∧
      audio_callback (some volts) frames volume =
        (List.range frames).map (fun i =>
          clipUnit ((interpAt (audioData volts (inputNeeded frames))
            (linspacePt (((audioData volts (inputNeeded frames)).length : ℚ) - 1)
              frames i) - MID_VREF) / MID_VREF * volume)) ∧
      (∀ y ∈ audio_callback (some volts) frames volume, -1 ≤ y ∧ y ≤ 1)) := by
  refine ⟨fun frames volume => rfl, ?_⟩
  intro volts frames volume hlen
  have hv : volts ≠ [] := by
    intro h
    rw [h] at hlen
    simp at hlen
  have hnot : ¬ volts.length < 10 := by omega
  have hcall : audio_callback (some volts) frames volume =
      (List.range frames).map (fun i =>
        clipUnit ((interpAt (audioData volts (inputNeeded frames))
          (linspacePt (((audioData volts (inputNeeded frames)).length : ℚ) - 1)
            frames i) - MID_VREF) / MID_VREF * volume)) := by
    rw [audio_callback, if_neg hnot]
  have hpos : 0 < inputNeeded frames := by
    rw [inputNeeded]
    omega
  refine ⟨rfl, audioData_length volts _ hv hpos, ?_, ?_, ?_, hcall, ?_⟩
  · intro hfit
    rw [audioData, if_pos hfit, lastSlice, if_neg (by omega)]
  · intro hshort i hi
    rw [audioData, if_neg (by omega), cyclicPad]
    have hL : 0 < volts.length := List.length_pos.mpr hv
    have htot : inputNeeded frames ≤
        (inputNeeded frames / volts.length + 1) * volts.length := by
      have h2 : inputNeeded frames / volts.length * volts.length +
          inputNeeded frames % volts.length = inputNeeded frames :=
        Nat.div_add_mod' _ _
      have h3 := Nat.mod_lt (inputNeeded frames) hL
      rw [Nat.succ_mul]
      omega
    have hflat : i < (List.flatten (List.replicate
        (inputNeeded frames / volts.length + 1) volts)).length := by
      rw [length_flatten_replicate]
      exact lt_of_lt_of_le hi htot
    have htake : i < (List.take (inputNeeded frames) (List.flatten (List.replicate
        (inputNeeded frames / volts.length + 1) volts))).length := by
      rw [List.length_take]
      exact lt_min hi hflat
    rw [List.getD_eq_getElem _ _ htake, List.getElem_take,
      ← List.getD_eq_getElem _ _ hflat]
    exact flatten_replicate_getD volts hv _ i (lt_of_lt_of_le hi htot)
  · rw [hcall]
    simp
  · intro y hy
    rw [hcall] at hy
    simp only [List.mem_map, List.mem_range] at hy
    obtain ⟨i, _, rfl⟩ := hy
    constructor
    · exact le_min (le_max_right _ _) (by norm_num)
    · exact min_le_right _ _

/-- Claim C9 witness: the amended theorem applied at a 10-sample window. -/
theorem C9_witness :
    (audio_callback (some [2, 2, 2, 2, 2, 2, 2, 2, 2, 2]) 4 1).length = 4 :=
  ((C9_audio_callback.2 [2, 2, 2, 2, 2, 2, 2, 2, 2, 2] 4 1
    (by decide)).2.2.2.2).1

/-! ## src/gui/src/gui.py : calculate_measurements

```
if not data or len(data) < 10: return None
v_min = np.min(arr); v_max = np.max(arr); v_pp = v_max - v_min
v_avg = np.mean(arr)
arr_ac = arr - v_avg
window = np.hanning(n)
mags = np.abs(np.fft.rfft(arr_ac * window))
idx = np.argmax(mags[1:]) + 1
peak_freq = np.fft.rfftfreq(n, 1/fs)[idx]      # = idx * fs / n
freq = peak_freq if mags[idx] > 3 * np.mean(mags) else None
```
The FFT is over the reals, so this part of the model lives in `ℝ` with the
exact DFT semantics of `np.fft.rfft` (bins `0 .. n/2`,
`A_k = Σ_m a_m e^{-2πi m k / n}`) and `np.hanning`
(`0.5 - 0.5 cos(2π k/(M-1))`, the single-point window being `[1]`).
`np.argmax` returns the first index attaining the maximum.
-/

/-- Python `min(...)`/`np.min` over a nonempty real list. -/
noncomputable def listMinR : List ℝ → ℝ
  | [] => 0
  | v :: vs => vs.foldl min v

/-- Python `max(...)`/`np.max` over a nonempty real list. -/
noncomputable def listMaxR : List ℝ → ℝ
  | [] => 0
  | v :: vs => vs.foldl max v

/-- `np.mean`. -/
noncomputable def meanR (data : List ℝ) : ℝ := data.sum / data.length

/-- `np.hanning(n)` at position `k`. -/
noncomputable def hanning (n k : ℕ) : ℝ :=
  if n = 1 then 1
  else 1 / 2 - 1 / 2 * Real.cos (2 * Real.pi * k / ((n : ℝ) - 1))

/-- the Hann-windowed, mean-removed series `(arr - v_avg) * window`. -/
noncomputable def windowed (data : List ℝ) : List ℝ :=
  (List.range data.length).map
    (fun j => (data.getD j 0 - meanR data) * hanning data.length j)

/-- magnitude of rFFT bin `k` of a real series
(`np.abs(np.fft.rfft(ys))[k]`). -/
noncomputable def rfftMag (ys : List ℝ) (k : ℕ) : ℝ :=
  Complex.abs (∑ j ∈ Finset.range ys.length,
    (ys.getD j 0 : ℂ) *
      Complex.exp (-2 * Real.pi * Complex.I * j * k / ys.length))

/-- the magnitude spectrum `mags` (bins `0 .. n/2`). -/
noncomputable def magSpectrum (data : List ℝ) : List ℝ :=
  (List.range (data.length / 2 + 1)).map (fun k => rfftMag (windowed data) k)

open Classical in
/-- `np.argmax`: index of the first occurrence of the maximum. -/
noncomputable def npArgmax (xs : List ℝ) : ℕ :=
  xs.findIdx (fun x => decide (x = listMaxR xs))

/-- `idx = np.argmax(mags[1:]) + 1`. -/
noncomputable def peakIdx (data : List ℝ) : ℕ :=
  npArgmax ((magSpectrum data).drop 1) + 1

/-- the measurement record returned per channel. -/
structure Measurement where
  vPp : ℝ
  vAvg : ℝ
  vMin : ℝ
  vMax : ℝ
  freq : Option ℝ

open Classical in
/-- calculate_measurements from src/gui/src/gui.py. -/
noncomputable def calculate_measurements (data : List ℝ) (fs : ℝ) :
    Option Measurement :=
  if data.length < 10 then none
  else
    some { vPp := listMaxR data - listMinR data
           vAvg := meanR data
           vMin := listMinR data
           vMax := listMaxR data
           freq := if (magSpectrum data).getD (peakIdx data) 0 >
               3 * meanR (magSpectrum data) then
             some ((peakIdx data : ℝ) * fs / data.length)
           else none }

/-- Modelled from the spec: the properties claimed of a returned
measurement — `v_min`/`v_max` are an attained lower/upper bound of the
data, `v_pp` their difference, `v_avg` the arithmetic mean, the peak index
lies in `1 .. n/2` and attains the maximum magnitude among the non-DC
bins, the frequency is present exactly when that peak magnitude exceeds
3 times the mean magnitude of the whole spectrum, and when present it
equals `idx * fs / n` (positive for a positive sample rate). -/
def MeasSpec (data : List ℝ) (fs : ℝ) (m : Measurement) : Prop :=
  m.vMin ∈ data ∧ (∀ x ∈ data, m.vMin ≤ x) ∧
  m.vMax ∈ data ∧ (∀ x ∈ data, x ≤ m.vMax) ∧
  m.vPp = m.vMax - m.vMin ∧
  m.vAvg = data.sum / data.length ∧
  1 ≤ peakIdx data ∧ peakIdx data ≤ data.length / 2 ∧
  (∀ k, 1 ≤ k → k ≤ data.length / 2 →
    (magSpectrum data).getD k 0 ≤ (magSpectrum data).getD (peakIdx data) 0) ∧
  (m.freq ≠ none ↔
    3 * meanR (magSpectrum data) < (magSpectrum data).getD (peakIdx data) 0) ∧
  (∀ f, m.freq = some f → f = (peakIdx data : ℝ) * fs / data.length) ∧
  (0 < fs → ∀ f, m.freq = some f → 0 < f)

/-! ## Lemmas about fold-based min/max and argmax -/

lemma foldl_min_le_start (vs : List ℝ) : ∀ (a : ℝ), vs.foldl min a ≤ a := by
  induction vs with
  | nil => intro a; exact le_refl a
  | cons v vs ih =>
    intro a
    rw [List.foldl_cons]
    exact le_trans (ih (min a v)) (min_le_left a v)

lemma foldl_min_le_mem (vs : List ℝ) : ∀ (a : ℝ), ∀ x ∈ vs, vs.foldl min a ≤ x := by
  induction vs with
  | nil => intro a x hx; simp at hx
  | cons v vs ih =>
    intro a x hx
    rw [List.foldl_cons]
    rcases List.mem_cons.mp hx with rfl | hx
    · exact le_trans (foldl_min_le_start vs (min a x)) (min_le_right a x)
    · exact ih (min a v) x hx

lemma foldl_min_mem (vs : List ℝ) : ∀ (a : ℝ), vs.foldl min a = a ∨ vs.foldl min a ∈ vs := by
  induction vs with
  | nil => intro a; exact Or.inl rfl
  | cons v vs ih =>
    intro a
    rw [List.foldl_cons]
    rcases ih (min a v) with h | h
    · rcases min_choice a v with hm | hm
      · exact Or.inl (h.trans hm)
      · exact Or.inr (List.mem_cons.mpr (Or.inl (h.trans hm)))
    · exact Or.inr (List.mem_cons.mpr (Or.inr h))

lemma foldl_max_ge_start (vs : List ℝ) : ∀ (a : ℝ), a ≤ vs.foldl max a := by
  induction vs with
  | nil => intro a; exact le_refl a
  | cons v vs ih =>
    intro a
    rw [List.foldl_cons]
    exact le_trans (le_max_left a v) (ih (max a v))

lemma foldl_max_ge_mem (vs : List ℝ) : ∀ (a : ℝ), ∀ x ∈ vs, x ≤ vs.foldl max a := by
  induction vs with
  | nil => intro a x hx; simp at hx
  | cons v vs ih =>
    intro a x hx
    rw [List.foldl_cons]
    rcases List.mem_cons.mp hx with rfl | hx
    · exact le_trans (le_max_right a x) (foldl_max_ge_start vs (max a x))
    · exact ih (max a v) x hx

lemma foldl_max_mem (vs : List ℝ) : ∀ (a : ℝ), vs.foldl max a = a ∨ vs.foldl max a ∈ vs := by
  induction vs with
  | nil => intro a; exact Or.inl rfl
  | cons v vs ih =>
    intro a
    rw [List.foldl_cons]
    rcases ih (max a v) with h | h
    · rcases max_choice a v with hm | hm
      · exact Or.inl (h.trans hm)
      · exact Or.inr (List.mem_cons.mpr (Or.inl (h.trans hm)))
    · exact Or.inr (List.mem_cons.mpr (Or.inr h))

lemma listMinR_mem (xs : List ℝ) (hxs : xs ≠ []) : listMinR xs ∈ xs := by
  cases xs with
  | nil => exact absurd rfl hxs
  | cons v vs =>
    rw [listMinR]
    rcases foldl_min_mem vs v with h | h
    · exact List.mem_cons.mpr (Or.inl h)
    · exact List.mem_cons.mpr (Or.inr h)

lemma listMinR_le (xs : List ℝ) : ∀ x ∈ xs, listMinR xs ≤ x := by
  cases xs with
  | nil => intro x hx; simp at hx
  | cons v vs =>
    intro x hx
    rw [listMinR]
    rcases List.mem_cons.mp hx with rfl | hx
    · exact foldl_min_le_start vs x
    · exact foldl_min_le_mem vs v x hx

lemma listMaxR_mem (xs : List ℝ) (hxs : xs ≠ []) : listMaxR xs ∈ xs := by
  cases xs with
  | nil => exact absurd rfl hxs
  | cons v vs =>
    rw [listMaxR]
    rcases foldl_max_mem vs v with h | h
    · exact List.mem_cons.mpr (Or.inl h)
    · exact List.mem_cons.mpr (Or.inr h)

lemma listMaxR_ge (xs : List ℝ) : ∀ x ∈ xs, x ≤ listMaxR xs := by
  cases xs with
  | nil => intro x hx; simp at hx
  | cons v vs =>
    intro x hx
    rw [listMaxR]
    rcases List.mem_cons.mp hx with rfl | hx
    · exact foldl_max_ge_start vs x
    · exact foldl_max_ge_mem vs v x hx

lemma npArgmax_lt_length (xs : List ℝ) (hxs : xs ≠ []) :
    npArgmax xs < xs.length := by
  rw [npArgmax]
  exact List.findIdx_lt_length_of_exists ⟨listMaxR xs, listMaxR_mem xs hxs, by simp⟩

lemma npArgmax_getD (xs : List ℝ) (hxs : xs ≠ []) :
    xs.getD (npArgmax xs) 0 = listMaxR xs := by
  have hlt := npArgmax_lt_length xs hxs
  have w : xs.findIdx (fun x => decide (x = listMaxR xs)) < xs.length := hlt
  have h3 := @List.findIdx_getElem _ (fun x => decide (x = listMaxR xs)) xs w
  simp only [decide_eq_true_eq] at h3
  rw [List.getD_eq_getElem _ _ hlt]
  exact h3

lemma getD_drop_one (l : List ℝ) (i : ℕ) :
    (l.drop 1).getD i 0 = l.getD (1 + i) 0 := by
  cases l with
  | nil => rfl
  | cons a t =>
    rw [List.drop_one, List.tail_cons, Nat.add_comm, List.getD_cons_succ]

/-- Claim C8: `calculate_measurements` returns no measurement exactly when
the data has fewer than 10 samples; otherwise it returns the attained
min/max, their difference as `v_pp`, the arithmetic mean as `v_avg`, and a
frequency `idx * fs / N` — `idx` a maximal-magnitude non-DC bin of the
rFFT spectrum of the Hann-windowed mean-removed data — present exactly
when the peak magnitude exceeds 3 times the mean magnitude of the whole
spectrum (and nonzero for a positive sample rate). -/
theorem C8_measurements (data : List ℝ) (fs : ℝ) :
    (calculate_measurements data fs = none ↔ data.length < 10) ∧
    (10 ≤ data.length →
      ∃ m, calculate_measurements data fs = some m ∧ MeasSpec data fs m) := by
  constructor
  · constructor
    · intro h
      by_contra hlen
      rw [calculate_measurements, if_neg hlen] at h
      exact Option.noConfusion h
    · intro h
      rw [calculate_measurements, if_pos h]
  · intro hlen
    have hn10 : ¬ data.length < 10 := by omega
    have hne : data ≠ [] := by
      intro h
      rw [h] at hlen
      simp at hlen
    have hmagslen : (magSpectrum data).length = data.length / 2 + 1 := by
      simp [magSpectrum]
    have hdroplen : ((magSpectrum data).drop 1).length = data.length / 2 := by
      simp [hmagslen]
    have hdpos : 0 < data.length / 2 := by omega
    have hdropne : (magSpectrum data).drop 1 ≠ [] :=
      List.length_pos.mp (by rw [hdroplen]; exact hdpos)
    have hargmax := npArgmax_lt_length _ hdropne
    rw [hdroplen] at hargmax
    have hpeak_le : peakIdx data ≤ data.length / 2 := by
      rw [peakIdx]; omega
    have hpeak_ge : 1 ≤ peakIdx data := by rw [peakIdx]; omega
    have hgd : ∀ k, 1 ≤ k → k ≤ data.length / 2 →
        (magSpectrum data).getD k 0 =
          ((magSpectrum data).drop 1).getD (k - 1) 0 := by
      intro k h1 _
      rw [getD_drop_one]
      congr 1
      omega
    have hpeak_val : (magSpectrum data).getD (peakIdx data) 0 =
        listMaxR ((magSpectrum data).drop 1) := by
      rw [hgd (peakIdx data) hpeak_ge hpeak_le, peakIdx]
      rw [show npArgmax ((magSpectrum data).drop 1) + 1 - 1 =
        npArgmax ((magSpectrum data).drop 1) by omega]
      exact npArgmax_getD _ hdropne
    rw [calculate_measurements, if_neg hn10]
    refine ⟨_, rfl, ?_⟩
    rw [MeasSpec]
    refine ⟨listMinR_mem data hne, listMinR_le data, listMaxR_mem data hne,
      listMaxR_ge data, rfl, rfl, hpeak_ge, hpeak_le, ?_, ?_, ?_, ?_⟩
    · intro k h1 h2
      rw [hgd k h1 h2, hpeak_val]
      have hklen : k - 1 < ((magSpectrum data).drop 1).length := by
        rw [hdroplen]; omega
      have hmem : ((magSpectrum data).drop 1).getD (k - 1) 0 ∈
          (magSpectrum data).drop 1 := by
        rw [List.getD_eq_getElem _ _ hklen]
        exact List.getElem_mem hklen
      exact listMaxR_ge _ _ hmem
    · dsimp only
      split
      · rename_i hc
        exact ⟨fun _ => hc, fun _ => by simp⟩
      · rename_i hc
        constructor
        · intro h
          exact absurd rfl h
        · intro h
          exact absurd h hc
    · dsimp only
      split
      · intro f hf
        injection hf with hf
        exact hf.symm
      · intro f hf
        exact Option.noConfusion hf
    · intro hfs f hf
      dsimp only at hf
      split at hf
      · injection hf with hf
        rw [← hf]
        apply div_pos (mul_pos ?_ hfs) ?_
        · have h0 : (0 : ℕ) < peakIdx data := hpeak_ge
          exact_mod_cast h0
        · have h0 : (0 : ℕ) < data.length := by omega
          exact_mod_cast h0
      · exact Option.noConfusion hf

/-- Claim C8 witness: the theorem applied on a concrete 10-sample window. -/
theorem C8_witness :
    ∃ m, calculate_measurements (List.replicate 10 (0 : ℝ)) 1 = some m ∧
      MeasSpec (List.replicate 10 (0 : ℝ)) 1 m :=
  (C8_measurements (List.replicate 10 (0 : ℝ)) 1).2 (by decide)

end MiniScope
